import Mathlib

/-!
Verification development for the MetadataPublisher backend execution
subsystem.  The definitions below are shallow embeddings of:

* `src/modules/dditree.ts` (v2 half of the module): `computeSignature`,
  `loadFromCache`, `saveToCache`, `getOrBuildDDITree`;
* `src/main.ts`: `getExtension`, `isSupportedCodebookFile`,
  `loadCodebookFile`, `ensureWebRInitialized`;
* `src/modules/cover.ts` (`NativeRWorker`): correlation-id allocation in
  `evalRVoid` / `evalRString`;
* `src/library/R/utils.R`: `keep_attributes`, `normalize_element`,
  `normalize_children`, `normalize_codebook`.

Modelling conventions:
* JavaScript `JsonValue` is the inductive `Json`; `JSON.parse` composed with
  `JSON.stringify` is the identity on such values, so cache files store the
  parsed value directly.
* File-system reads that throw (missing file, parse error) are `none`.
* Sequences of file-system writes are driven by a `Nat` "ok" budget: the
  first `ok` operations succeed and the next one throws.  This covers every
  partial-failure mode of `saveToCache`'s try/catch block.
* The sha256 digest is an abstract parameter `h : List Nat → String`;
  nothing proved here depends on properties of the digest.
-/

/-- JavaScript JSON values (`JsonValue` in `src/modules/dditree.ts`).
Numbers are modelled as integers; object fields keep insertion order. -/
inductive Json where
  | null : Json
  | bool (b : Bool) : Json
  | num (n : Int) : Json
  | str (s : String) : Json
  | arr (xs : List Json) : Json
  | obj (fields : List (String × Json)) : Json

/-- JavaScript truthiness of a JSON value (`if (cached)` in
`getOrBuildDDITree`): `null`, `false`, `0` and the empty string are falsy;
arrays and objects are always truthy. -/
def jsTruthy : Json → Bool
  | Json.null => false
  | Json.bool b => b
  | Json.num n => n != 0
  | Json.str s => s != ""
  | Json.arr _ => true
  | Json.obj _ => true

/-- First field of a JSON object with the given key, if any. -/
def lookupField : List (String × Json) → String → Option Json
  | [], _ => none
  | (k, v) :: rest, key => if k = key then some v else lookupField rest key

/-- Property access `payload.tree` / `payload.elements` on a JSON value;
`Json.null` stands for JavaScript `undefined` on a missing key. -/
def getField (j : Json) (key : String) : Json :=
  match j with
  | Json.obj fields => (lookupField fields key).getD Json.null
  | _ => Json.null

/-- The `isBundle` duck-type test of `src/modules/dditree.ts`: a truthy
object containing both a `tree` and an `elements` key. -/
def isBundle (j : Json) : Bool :=
  match j with
  | Json.obj fields =>
      (fields.map Prod.fst).contains "tree" && (fields.map Prod.fst).contains "elements"
  | _ => false

/-- Contents of `meta.json` (`Meta` in `src/modules/dditree.ts`). -/
structure Meta where
  signature : String
  createdAt : String
deriving DecidableEq

/-- On-disk state of the cache directory `ddiTreeCache/v2`: the parsed
contents of `tree.json`, `elements.json` and `meta.json`; `none` models a
file whose read (or JSON parse) throws. -/
structure CacheFS where
  treeFile : Option Json
  elementsFile : Option Json
  metaFile : Option Meta

/-- Cache directory with no readable files. -/
def emptyFS : CacheFS := ⟨none, none, none⟩

/-- Ambient inputs of the cache module: the application version string, the
byte contents of the two bundled engine-asset archives (`none` models a
read that throws, skipping the corresponding `hash.update`), and the
wall-clock reading used for `createdAt`. -/
structure Env where
  version : String
  pkgData : Option (List Nat)
  pkgMeta : Option (List Nat)
  now : String

/-- Bytes of a string, for feeding the version into the digest. -/
def strBytes (s : String) : List Nat := s.data.map Char.toNat

/-- Embedding of `computeSignature` (dditree.ts, lines 32-48): digest of the
application version followed by the bytes of `library.data.gz` and
`library.js.metadata`; if reading `library.data.gz` throws neither archive
is hashed, and if only the metadata read throws the data archive alone is
hashed, mirroring the single try/catch block.  `h` abstracts the sha256
digest. -/
def computeSignature (h : List Nat → String) (env : Env) : String :=
  let bytes := strBytes env.version
  let bytes :=
    match env.pkgData with
    | none => bytes
    | some d =>
        match env.pkgMeta with
        | none => bytes ++ d
        | some m => bytes ++ d ++ m
  h bytes

/-- Embedding of `loadFromCache` (dditree.ts, lines 50-71): any read failure
returns `null`; a signature mismatch returns `null`; if `elements.json` is
readable the result is the `{tree, elements}` bundle object, otherwise the
bare tree. -/
def loadFromCache (fs : CacheFS) (expectedSig : String) : Option Json :=
  match fs.metaFile with
  | none => none
  | some meta =>
      if meta.signature ≠ expectedSig then none
      else
        match fs.treeFile with
        | none => none
        | some tree =>
            match fs.elementsFile with
            | some elements => some (Json.obj [("tree", tree), ("elements", elements)])
            | none => some tree

/-- Embedding of the body of `saveToCache` (dditree.ts, lines 73-97) before
its catch: the write sequence for a bundle is mkdir, tree.json,
elements.json, meta.json, and for a non-bundle mkdir, tree.json, meta.json
(an old elements.json is left as-is).  The first `ok` operations succeed;
if the budget runs out the pending exception is reported in the second
component together with the files already written. -/
def saveAttempt (sig now : String) (payload : Json) (fs : CacheFS) (ok : Nat) :
    CacheFS × Option String :=
  if isBundle payload then
    if ok = 0 then (fs, some "mkdir failed")
    else if ok = 1 then (fs, some "write tree.json failed")
    else if ok = 2 then
      ({ fs with treeFile := some (getField payload "tree") }, some "write elements.json failed")
    else if ok = 3 then
      ({ fs with treeFile := some (getField payload "tree"),
                 elementsFile := some (getField payload "elements") }, some "write meta.json failed")
    else
      ({ treeFile := some (getField payload "tree"),
         elementsFile := some (getField payload "elements"),
         metaFile := some ⟨sig, now⟩ }, none)
  else
    if ok = 0 then (fs, some "mkdir failed")
    else if ok = 1 then (fs, some "write tree.json failed")
    else if ok = 2 then ({ fs with treeFile := some payload }, some "write meta.json failed")
    else ({ fs with treeFile := some payload, metaFile := some ⟨sig, now⟩ }, none)

/-- Embedding of `saveToCache` as called by `getOrBuildDDITree`: the outer
try/catch swallows any write failure, keeping whatever files were written
before it. -/
def saveToCache (sig now : String) (payload : Json) (fs : CacheFS) (ok : Nat) : CacheFS :=
  (saveAttempt sig now payload fs ok).1

/-- The cache-consultation step of `getOrBuildDDITree`: `loadFromCache`
followed by the JavaScript truthiness test `if (cached)`. -/
def cacheHit (fs : CacheFS) (sig : String) : Option Json :=
  match loadFromCache fs sig with
  | none => none
  | some cached => if jsTruthy cached then some cached else none

/-- Embedding of `getOrBuildDDITree` (dditree.ts, lines 103-110).  Returns
the payload handed to the caller, the resulting cache state, and whether
`buildFn` was invoked.  `buildP` is the value produced by a successful
`buildFn` round-trip; `ok` is the write budget of the save step. -/
def getOrBuildDDITree (h : List Nat → String) (env : Env) (fs : CacheFS)
    (buildP : Json) (ok : Nat) : Json × CacheFS × Bool :=
  let sig := computeSignature h env
  match cacheHit fs sig with
  | some cached => (cached, fs, false)
  | none => (buildP, saveToCache sig env.now buildP fs ok, true)

/-!
Backend orchestration in `src/main.ts`: supported-extension gate,
codebook loading with native-to-embedded fallback, and the memoized
embedded-engine initialization.
-/

/-- Supported codebook extensions (`SUPPORTED_CODEBOOK_EXTENSIONS` in
`src/main.ts`, line 405); the `Set` is modelled as a list consulted by
membership. -/
def SUPPORTED_CODEBOOK_EXTENSIONS : List String :=
  ["xml", "sav", "por", "dta", "rds", "sas7bdat", "xls", "xlsx"]

/-- Final path segment, as `path.basename` on a POSIX path: the characters
after the last slash (trailing-slash trimming and Windows separators are
not modelled; no claim depends on them). -/
def basenameChars (p : String) : List Char :=
  (p.data.reverse.takeWhile (fun c => c ≠ '/')).reverse

/-- Node's `path.extname` on a basename: the substring from the last dot
(dot included), or empty when there is no dot or the only dot is the
leading character of a dotfile. -/
def extnameChars (b : List Char) : List Char :=
  let tl := b.reverse.takeWhile (fun c => c ≠ '.')
  if tl.length = b.length then []
  else if tl.length + 1 = b.length then []
  else '.' :: tl.reverse

/-- Embedding of `getExtension` (main.ts, lines 407-409):
`path.extname(filePath).replace(/^\./, '').toLowerCase()`. -/
def getExtension (filePath : String) : String :=
  let e := extnameChars (basenameChars filePath)
  String.mk ((if e.head? = some '.' then e.drop 1 else e).map Char.toLower)

/-- Embedding of `isSupportedCodebookFile` (main.ts, lines 411-414):
`Boolean(ext && SUPPORTED_CODEBOOK_EXTENSIONS.has(ext))`. -/
def isSupportedCodebookFile (filePath : String) : Bool :=
  (getExtension filePath != "") && SUPPORTED_CODEBOOK_EXTENSIONS.contains (getExtension filePath)

/-- Persisted backend preference (`BackendMode` in main.ts). -/
inductive BackendMode where
  | native : BackendMode
  | webr : BackendMode
deriving DecidableEq, BEq

/-- The slice of main-process module state that `loadCodebookFile` reads and
writes: the persisted preference as read by `getBackendMode`, the
discovered `nativeRscriptPath`, and the mutable `loadedCodebook`. -/
structure AppState where
  backendMode : BackendMode
  nativeRscriptPath : Option String
  loadedCodebook : Option Json

/-- Outcomes of the engine round-trips awaited by `loadCodebookFile`:
`nativeLoad p` is `loadCodebookViaNativeR(p)`, `webrInit` is
`ensureWebRInitialized()`, and `webrEval p` is `loadCodebookViaWebR(p)`
after a successful initialization.  Each is an `Except` because the
awaited promise either resolves or rejects with an error message. -/
structure BackendOracles where
  nativeLoad : String → Except String Json
  webrInit : Except String Unit
  webrEval : String → Except String Json

/-- Result seen by the caller of the embedded-engine path:
`await ensureWebRInitialized(); await loadCodebookViaWebR(p)` — an
initialization rejection propagates, otherwise the parse outcome does. -/
def webrLoad (b : BackendOracles) (p : String) : Except String Json :=
  match b.webrInit with
  | Except.error e => Except.error e
  | Except.ok _ => b.webrEval p

/-- Renderer-visible side effects of `loadCodebookFile`: error dialogs and
`webContents.send` messages, with i18n keys for the texts. -/
inductive UIEvent where
  | errorDialog (title msg : String) : UIEvent
  | addCover (msg : String) : UIEvent
  | sendCodebook (cb : Json) : UIEvent
  | removeCover : UIEvent

/-- Everything observable about one `loadCodebookFile(p)` call: the module
state afterwards, the emitted renderer events in order, whether each
backend was exercised (instrumentation), and the settled value of the
returned promise (`none` for the early unsupported-file return). -/
structure LoadRun where
  state : AppState
  events : List UIEvent
  nativeInvoked : Bool
  webrInvoked : Bool
  result : Option (Except String Json)

/-- Embedding of `loadCodebookFile` (main.ts, lines 543-592).  Unsupported
files produce an error dialog and return before touching any backend.
Otherwise the native backend is used when the preference is native and an
Rscript binary was discovered; a native rejection clears
`nativeRscriptPath` and retries the same file through the embedded engine.
The `finally` block always emits `removeCover`. -/
def loadCodebookFile (st : AppState) (b : BackendOracles) (p : String) : LoadRun :=
  if !(isSupportedCodebookFile p) then
    { state := st,
      events := [UIEvent.errorDialog "messages.load.failed" "messages.load.unsupported"],
      nativeInvoked := false, webrInvoked := false, result := none }
  else
    let cover := [UIEvent.addCover "page.main.loader"]
    let useNative := (st.backendMode == BackendMode.native) && st.nativeRscriptPath.isSome
    if useNative then
      match b.nativeLoad p with
      | Except.ok cb =>
          { state := { st with loadedCodebook := some cb },
            events := cover ++ [UIEvent.sendCodebook cb, UIEvent.removeCover],
            nativeInvoked := true, webrInvoked := false, result := some (Except.ok cb) }
      | Except.error _ =>
          let st1 := { st with nativeRscriptPath := none }
          match webrLoad b p with
          | Except.ok cb =>
              { state := { st1 with loadedCodebook := some cb },
                events := cover ++ [UIEvent.sendCodebook cb, UIEvent.removeCover],
                nativeInvoked := true, webrInvoked := true, result := some (Except.ok cb) }
          | Except.error e =>
              { state := st1,
                events := cover ++ [UIEvent.removeCover],
                nativeInvoked := true, webrInvoked := true, result := some (Except.error e) }
    else
      match webrLoad b p with
      | Except.ok cb =>
          { state := { st with loadedCodebook := some cb },
            events := cover ++ [UIEvent.sendCodebook cb, UIEvent.removeCover],
            nativeInvoked := false, webrInvoked := true, result := some (Except.ok cb) }
      | Except.error e =>
          { state := st,
            events := cover ++ [UIEvent.removeCover],
            nativeInvoked := false, webrInvoked := true, result := some (Except.error e) }

/-!
Memoized embedded-engine initialization (`ensureWebRInitialized`,
main.ts lines 710-722).  Promises are identified by allocation numbers;
`initCount` counts how many times `initWebR()` has been started.
-/

/-- Module state behind `ensureWebRInitialized`: the `webRInitialized` flag
(`initDone` here), the shared `webRInitPromise` (`inflight`), a fresh
promise-identity supply, and the `initWebR` start counter
(instrumentation). -/
structure WebRInitState where
  initDone : Bool
  inflight : Option Nat
  nextPid : Nat
  initCount : Nat

/-- Value returned to a caller of `ensureWebRInitialized`: `undefined`
(when already initialized) or the shared in-flight promise. -/
inductive EnsureRes where
  | immediate : EnsureRes
  | future (pid : Nat) : EnsureRes
deriving DecidableEq

/-- Embedding of `ensureWebRInitialized`: return immediately once
initialized; otherwise share the in-flight promise, starting `initWebR`
only when no promise exists. -/
def ensureWebRInitialized (s : WebRInitState) : WebRInitState × EnsureRes :=
  if s.initDone then (s, EnsureRes.immediate)
  else
    match s.inflight with
    | some pid => (s, EnsureRes.future pid)
    | none =>
        ({ initDone := s.initDone, inflight := some s.nextPid,
           nextPid := s.nextPid + 1, initCount := s.initCount + 1 },
         EnsureRes.future s.nextPid)

/-- The `.then` continuation of the init promise: a successful `initWebR`
sets `webRInitialized` (the promise reference is left in place). -/
def webRInitResolveOk (s : WebRInitState) : WebRInitState :=
  { s with initDone := true }

/-- The `.catch` continuation of the init promise: a failed `initWebR`
clears the shared promise so a later call retries. -/
def webRInitResolveErr (s : WebRInitState) : WebRInitState :=
  { s with inflight := none }

/-!
Native worker supervisor (`NativeRWorker` in `src/modules/cover.ts`):
correlation-id allocation for `evalRVoid` / `evalRString`.
-/

/-- The line `evalRVoid` writes to the worker's stdin (cover.ts, line 159):
the caller's expression wrapped so the engine reports a structured
`{id, status}` record. -/
def encodeVoidLine (expr : String) (id : Nat) : String :=
  "try((\x7b " ++ expr ++
    " ; cat(jsonlite::toJSON(list(id=" ++ toString id ++
    ",status=\"ok\"), auto_unbox=TRUE),\"\\n\") \x7d), silent=TRUE)"

/-- The line `evalRString` writes to the worker's stdin (cover.ts, line
176): like `encodeVoidLine` but capturing the expression's value. -/
def encodeEvalLine (expr : String) (id : Nat) : String :=
  "try((\x7b .mp_res <- ( " ++ expr ++
    " ) ; cat(jsonlite::toJSON(list(id=" ++ toString id ++
    ",status=\"ok\",result=.mp_res), auto_unbox=TRUE),\"\\n\") \x7d), silent=TRUE)"

/-- State of one `NativeRWorker` process instance: whether the subprocess
is alive, whether the init line arrived (`initialized` in the source,
`initDone` here), the `nextId` counter, and the history of evaluation
lines written to stdin with their correlation ids (instrumentation). -/
structure WState where
  procAlive : Bool
  initDone : Bool
  nextId : Nat
  sent : List (Nat × String)

/-- State right after `start()`: process spawned, `nextId` reset to 1,
pending table cleared, init line not yet received. -/
def workerStart : WState :=
  { procAlive := true, initDone := false, nextId := 1, sent := [] }

/-- Operations driven against one worker instance: arrival of a successful
init line, the two evaluation calls, and `stop()`. -/
inductive WCmd where
  | initOkLine : WCmd
  | evalRVoid (expr : String) : WCmd
  | evalRString (expr : String) : WCmd
  | stop : WCmd

/-- One step of the worker supervisor.  Evaluation calls allocate
`id = nextId++` and write the encoded line only when the process is alive
and initialized; otherwise they reject immediately without touching the
counter (cover.ts, lines 152-183).  `stop()` kills the process and resets
the init flag (cover.ts, lines 208-233). -/
def wstep (s : WState) (c : WCmd) : WState :=
  match c with
  | WCmd.initOkLine =>
      if s.procAlive && !s.initDone then { s with initDone := true } else s
  | WCmd.evalRVoid e =>
      if s.procAlive && s.initDone then
        { s with nextId := s.nextId + 1,
                 sent := s.sent ++ [(s.nextId, encodeVoidLine e s.nextId)] }
      else s
  | WCmd.evalRString e =>
      if s.procAlive && s.initDone then
        { s with nextId := s.nextId + 1,
                 sent := s.sent ++ [(s.nextId, encodeEvalLine e s.nextId)] }
      else s
  | WCmd.stop => { s with procAlive := false, initDone := false }

/-- A whole lifetime of one worker instance: `start()` followed by an
arbitrary sequence of operations. -/
def runWorker (cs : List WCmd) : WState :=
  cs.foldl wstep workerStart


/-!
Normalizer (`src/library/R/utils.R`).  R values arriving from the engine
are nested named lists, possibly with duplicated names, empty names, and
R attributes; atomic scalars are modelled as strings and attribute values
as strings (the DDI codebooks only carry character attributes).  Lists
with partially empty names are modelled; a fully unnamed R list (whose
`names` is NULL) is out of scope as no claim involves one.  The entry
sequences are bespoke mutual inductives rather than `List`s so that all
recursion below is structural and computations reduce definitionally;
`toList` / `ofList` mediate with the list library.
-/

mutual
/-- R value after `keep_attributes`: either an atomic scalar or a named
list, attribute metadata already reified as ordinary `.attributes`
entries. -/
inductive Raw where
  | atom (v : String) : Raw
  | node (entries : RawEntries) : Raw
/-- Entry sequence of a named R list of `Raw` values. -/
inductive RawEntries where
  | nil : RawEntries
  | cons (key : String) (val : Raw) (rest : RawEntries) : RawEntries
end

/-- Entries as an association list. -/
def RawEntries.toList : RawEntries → List (String × Raw)
  | RawEntries.nil => []
  | RawEntries.cons k v r => (k, v) :: RawEntries.toList r

/-- Entries from an association list. -/
def RawEntries.ofList : List (String × Raw) → RawEntries
  | [] => RawEntries.nil
  | (k, v) :: r => RawEntries.cons k v (RawEntries.ofList r)

mutual
/-- Size measure of a `Raw` value, bounding its nesting depth; used as the
canonical fuel of the normalizer. -/
def rawSize : Raw → Nat
  | Raw.atom _ => 1
  | Raw.node entries => 1 + rawEntriesSize entries
/-- Size measure of an entry sequence. -/
def rawEntriesSize : RawEntries → Nat
  | RawEntries.nil => 0
  | RawEntries.cons _ v rest => 1 + rawSize v + rawEntriesSize rest
end

mutual
/-- R value as produced by the engine, before `keep_attributes`: atoms and
named lists each carrying their R attributes. -/
inductive RValue where
  | atom (v : String) (attrs : List (String × String)) : RValue
  | rlist (entries : RVEntries) (attrs : List (String × String)) : RValue
/-- Entry sequence of a named R list of `RValue`s. -/
inductive RVEntries where
  | nil : RVEntries
  | cons (key : String) (val : RValue) (rest : RVEntries) : RVEntries
end

mutual
/-- Size measure of an `RValue`, bounding its nesting depth. -/
def rvalueSize : RValue → Nat
  | RValue.atom _ _ => 1
  | RValue.rlist entries _ => 1 + rvEntriesSize entries
/-- Size measure of an `RVEntries` sequence. -/
def rvEntriesSize : RVEntries → Nat
  | RVEntries.nil => 0
  | RVEntries.cons _ v rest => 1 + rvalueSize v + rvEntriesSize rest
end

/-- Entries as an association list, for `RVEntries`. -/
def RVEntries.toList : RVEntries → List (String × RValue)
  | RVEntries.nil => []
  | RVEntries.cons k v r => (k, v) :: RVEntries.toList r

/-- Drop the `names` and `class` attributes
(`attrs[setdiff(names(attrs), c("names", "class"))]`). -/
def filterAttrs (attrs : List (String × String)) : List (String × String) :=
  attrs.filter (fun p => (p.1 != "names") && (p.1 != "class"))

/-- An attribute set as an R named list value. -/
def encodeAttrs (a : List (String × String)) : Raw :=
  Raw.node (RawEntries.ofList (a.map (fun p => (p.1, Raw.atom p.2))))

/-- R list assignment `x$k <- v`: overwrite the first entry named `k` in
place, else append at the end. -/
def setOrAppend (key : String) (v : Raw) : List (String × Raw) → List (String × Raw)
  | [] => [(key, v)]
  | (k, w) :: rest =>
      if k = key then (k, v) :: rest else (k, w) :: setOrAppend key v rest

/-- Embedding of `keep_attributes` (utils.R, lines 1-26), with a fuel
argument making the nested recursion structural; any fuel of at least the
nesting depth (in particular `rvalueSize`) gives the function's value.
The source's `list(.attributes = attrs)` for an empty list with no
surviving attributes holds a single NULL entry that every downstream
accessor treats exactly like the empty list, so it is rendered as an
empty node. -/
def keepAttributesF : Nat → RValue → Raw
  | 0, _ => Raw.node RawEntries.nil
  | _ + 1, RValue.atom v attrs =>
      let a := filterAttrs attrs
      if a.isEmpty then Raw.atom v
      else
        Raw.node (RawEntries.ofList
          [("value", Raw.atom v), (".attributes", encodeAttrs a)])
  | fuel + 1, RValue.rlist entries attrs =>
      let a := filterAttrs attrs
      let entries1 := entries.toList.map
        (fun p => ((if p.1 = "" then "value" else p.1), keepAttributesF fuel p.2))
      Raw.node (RawEntries.ofList
        (if a.isEmpty then entries1 else setOrAppend ".attributes" (encodeAttrs a) entries1))

/-- R list access `x$k` (exact match): first entry named `k`, if any. -/
def lookupRaw : List (String × Raw) → String → Option Raw
  | [], _ => none
  | (k, v) :: rest, key => if k = key then some v else lookupRaw rest key

/-- R list removal `x$k <- NULL`: drop the first entry named `k`. -/
def removeFirstKey (key : String) : List (String × Raw) → List (String × Raw)
  | [] => []
  | (k, v) :: rest => if k = key then rest else (k, v) :: removeFirstKey key rest

/-- The key vector of `normalize_children` after
`keys[!(keys %in% c(".attributes", ".extra"))]`. -/
def filteredKeys (entries : List (String × Raw)) : List String :=
  (entries.map Prod.fst).filter (fun k => (k != ".attributes") && (k != ".extra"))

/-- Base-name extraction `sub("\.\d+$", "", k)` (the R literal
`"\\.\\d+$"`): strip one trailing dot-plus-digits suffix if present. -/
def stripIdx (k : String) : String :=
  let rev := k.data.reverse
  let ds := rev.takeWhile (fun c => c.isDigit)
  if ds.isEmpty then k
  else
    match rev.drop ds.length with
    | '.' :: rest => String.mk rest.reverse
    | _ => k

/-- Tail acceptor of the grouping pattern actually built at utils.R line
89: the R literal `"(\\\\.\\\\d+)?$"` denotes the regex text
`(\\.\\d+)?$`, whose group matches a literal backslash, one arbitrary
character, a second literal backslash and then one or more letters `d` —
not a numeric suffix. -/
def rxTail : List Char → Bool
  | '\\' :: _ :: '\\' :: ds => !ds.isEmpty && ds.all (fun c => c = 'd')
  | _ => false

/-- Anchored match of the pattern `^esc(base)(\\.\\d+)?$` against a key,
on character lists: the key is the base itself, or the base followed by
the backslash-pattern tail (`esc` makes the base literal, so the required
prefix is exact). -/
def rxMatchL (base key : List Char) : Bool :=
  match base, key with
  | [], rest => rest.isEmpty || rxTail rest
  | _ :: _, [] => false
  | b :: bs, c :: cs => (b == c) && rxMatchL bs cs

/-- The `grepl(rx, keys)` test of `normalize_children` for one key. -/
def rxMatch (base key : String) : Bool :=
  rxMatchL base.data key.data

/-- Zero-based indices of `which(grepl(rx, keys, perl = TRUE))`. -/
def whichMatch (base : String) (keys : List String) : List Nat :=
  (List.range keys.length).filter (fun j => rxMatch base (keys.getD j ""))

/-- Mark `used[idx] <- TRUE`. -/
def markUsed (used : List Bool) (idx : List Nat) : List Bool :=
  idx.foldl (fun u j => u.set j true) used

/-- The scan loop of `normalize_children` (utils.R, lines 84-97) producing
`(child_name, j)` pairs in emission order; the countdown argument makes
the loop structural and is started at `keys.length`, exactly the number
of iterations the R loop performs. -/
def groupAux (keys : List String) : List Bool → Nat → Nat → List (String × Nat)
  | _, _, 0 => []
  | used, i, n + 1 =>
      if h : i < keys.length then
        if used.getD i false then groupAux keys used (i + 1) n
        else
          let base := stripIdx (keys.get ⟨i, h⟩)
          let idx := whichMatch base keys
          idx.map (fun j => (base, j)) ++ groupAux keys (markUsed used idx) (i + 1) n
      else []

/-- The `(child_name, child_val)` pairs emitted by `normalize_children`:
`x[[j]]` indexes the full entry list (meta entries included) with an
index computed against the filtered key vector, exactly as the source
does.  Indices produced by `whichMatch` are below `keys.length ≤
entries.length`, so the `Option` lookup never loses an emission. -/
def groupRows (entries : List (String × Raw)) : List (String × Raw) :=
  let keys := filteredKeys entries
  (groupAux keys (List.replicate keys.length false) 0 keys.length).filterMap
    (fun bj => (entries.get? bj.2).map (fun e => (bj.1, e.2)))

/-- Output node shape of the normalizer (utils.R, lines 28-35): `name`,
optional `attributes` (an R value), optional scalar `value`, optional
`children`. -/
structure NNode where
  name : String
  attributes : Option Raw
  value : Option Raw
  children : Option (List NNode)

instance : Inhabited NNode := ⟨⟨"", none, none, none⟩⟩

/-- The children list a node derives from an entry list, parameterized by
the element normalizer so the two mutually recursive source functions can
be tied together structurally. -/
def childrenOf (elemF : String → Raw → NNode) (x : Raw) : List NNode :=
  match x with
  | Raw.atom _ => []
  | Raw.node entries => (groupRows entries.toList).map (fun p => elemF p.1 p.2)

/-- Embedding of `normalize_element` (utils.R, lines 37-71), fuel-indexed
as for `keepAttributesF`.  Meta entries are removed up front
(`x$.attributes <- NULL` is a no-op when the entry is absent, so the
removal is unconditional), the leaf test is `setdiff(names, "value")`
emptiness plus `"value" %in% names`, and otherwise the remaining entries
are grouped into children. -/
def normalizeElementF : Nat → String → Raw → NNode
  | 0, nm, _ => { name := nm, attributes := none, value := none, children := none }
  | fuel + 1, nm, x =>
      match x with
      | Raw.atom v =>
          { name := nm, attributes := none, value := some (Raw.atom v), children := none }
      | Raw.node entries =>
          let es := entries.toList
          let attrs := lookupRaw es ".attributes"
          let entries2 := removeFirstKey ".extra" (removeFirstKey ".attributes" es)
          let nn := entries2.map Prod.fst
          if ((nn.filter (fun s => s != "value")).isEmpty && nn.contains "value") then
            { name := nm, attributes := attrs,
              value := lookupRaw entries2 "value", children := none }
          else
            { name := nm, attributes := attrs, value := none,
              children := some (childrenOf (normalizeElementF fuel)
                (Raw.node (RawEntries.ofList entries2))) }

/-- Embedding of `normalize_children` (utils.R, lines 73-99): empty on a
non-list, otherwise the grouped entries each normalized as an element. -/
def normalizeChildrenF (fuel : Nat) (x : Raw) : List NNode :=
  childrenOf (normalizeElementF fuel) x

/-- `keep_attributes` at its canonical fuel. -/
def keep_attributes (x : RValue) : Raw := keepAttributesF (rvalueSize x) x

/-- `normalize_element` at its canonical fuel. -/
def normalize_element (nm : String) (x : Raw) : NNode :=
  normalizeElementF (rawSize x) nm x

/-- `normalize_children` at its canonical fuel. -/
def normalize_children (x : Raw) : List NNode :=
  normalizeChildrenF (rawSize x) x

/-- Embedding of `normalize_codebook` (utils.R, lines 101-110): apply
`keep_attributes`, pull the root `.attributes` entry into the node, and
group everything else as children of a node named `codeBook`. -/
def normalize_codebook (cb : RValue) : NNode :=
  match keep_attributes cb with
  | Raw.node entries =>
      { name := "codeBook",
        attributes := lookupRaw entries.toList ".attributes", value := none,
        children := some (normalize_children
          (Raw.node (RawEntries.ofList (removeFirstKey ".attributes" entries.toList)))) }
  | Raw.atom v =>
      { name := "codeBook", attributes := none, value := none,
        children := some (normalize_children (Raw.atom v)) }

/-!
Claim theorems: structure cache (C2, C3, C4).
-/

/-- Concrete stand-in for the digest in witnesses. -/
def hashW (bs : List Nat) : String := toString bs.length

/-- Concrete environment for witnesses. -/
def envW : Env :=
  { version := "1.0.0", pkgData := some [1, 2], pkgMeta := some [3],
    now := "2026-01-01T00:00:00Z" }

/-- Claim C2 (counterexample): with build payload `false` and every write
succeeding, the second `getOrBuildDDITree` call invokes the build function
again — `if (cached)` treats the faithfully cached falsy payload as a
miss — so the build function is not invoked exactly once. -/
theorem c2_counterexample :
    ((getOrBuildDDITree hashW envW emptyFS (Json.bool false) 9).1 = Json.bool false)
    ∧ ((getOrBuildDDITree hashW envW emptyFS (Json.bool false) 9).2.2 = true)
    ∧ ((getOrBuildDDITree hashW envW
        (getOrBuildDDITree hashW envW emptyFS (Json.bool false) 9).2.1
        (Json.bool false) 9).2.2 = true) :=
  ⟨rfl, rfl, rfl⟩

/-- Claim C2 (amended): starting from an empty cache directory, if the
payload is a canonical `{tree, elements}` bundle, or any JSON value that
is JavaScript-truthy and not bundle-shaped, and the first call's writes
all succeed, then both calls return the payload and only the first
invokes the build function. -/
theorem c2_cache_round_trip (h : List Nat → String) (env : Env) (P : Json)
    (ok1 ok2 : Nat)
    (hP : (∃ t e, P = Json.obj [("tree", t), ("elements", e)])
      ∨ (jsTruthy P = true ∧ isBundle P = false))
    (hok : (if isBundle P then 4 else 3) ≤ ok1) :
    (getOrBuildDDITree h env emptyFS P ok1).1 = P
    ∧ (getOrBuildDDITree h env emptyFS P ok1).2.2 = true
    ∧ (getOrBuildDDITree h env (getOrBuildDDITree h env emptyFS P ok1).2.1 P ok2).1 = P
    ∧ (getOrBuildDDITree h env (getOrBuildDDITree h env emptyFS P ok1).2.1 P ok2).2.2
        = false := by
  rcases hP with ⟨t, e, rfl⟩ | ⟨htr, hnb⟩
  · have hb : isBundle (Json.obj [("tree", t), ("elements", e)]) = true := rfl
    have hok4 : 4 ≤ ok1 := by simpa [hb] using hok
    have h0 : ¬ (ok1 = 0) := by omega
    have h1 : ¬ (ok1 = 1) := by omega
    have h2 : ¬ (ok1 = 2) := by omega
    have h3 : ¬ (ok1 = 3) := by omega
    have hrun1 : getOrBuildDDITree h env emptyFS (Json.obj [("tree", t), ("elements", e)]) ok1
        = (Json.obj [("tree", t), ("elements", e)],
           ⟨some t, some e, some ⟨computeSignature h env, env.now⟩⟩, true) := by
      simp [getOrBuildDDITree, cacheHit, loadFromCache, emptyFS, saveToCache, saveAttempt,
        hb, h0, h1, h2, h3, getField, lookupField]
    have hrun2 : getOrBuildDDITree h env
        (⟨some t, some e, some ⟨computeSignature h env, env.now⟩⟩ : CacheFS)
        (Json.obj [("tree", t), ("elements", e)]) ok2
        = (Json.obj [("tree", t), ("elements", e)],
           ⟨some t, some e, some ⟨computeSignature h env, env.now⟩⟩, false) := by
      simp [getOrBuildDDITree, cacheHit, loadFromCache, jsTruthy]
    simp [hrun1, hrun2]
  · have hok3 : 3 ≤ ok1 := by simpa [hnb] using hok
    have h0 : ¬ (ok1 = 0) := by omega
    have h1 : ¬ (ok1 = 1) := by omega
    have h2 : ¬ (ok1 = 2) := by omega
    have hrun1 : getOrBuildDDITree h env emptyFS P ok1
        = (P, ⟨some P, none, some ⟨computeSignature h env, env.now⟩⟩, true) := by
      simp [getOrBuildDDITree, cacheHit, loadFromCache, emptyFS, saveToCache, saveAttempt,
        hnb, h0, h1, h2]
    have hrun2 : getOrBuildDDITree h env
        (⟨some P, none, some ⟨computeSignature h env, env.now⟩⟩ : CacheFS) P ok2
        = (P, ⟨some P, none, some ⟨computeSignature h env, env.now⟩⟩, false) := by
      simp [getOrBuildDDITree, cacheHit, loadFromCache, htr]
    simp [hrun1, hrun2]

/-- Claim C2 (witness): the amended round trip at a concrete bundle. -/
theorem c2_cache_round_trip_witness :
    (getOrBuildDDITree hashW envW emptyFS
      (Json.obj [("tree", Json.num 1), ("elements", Json.num 2)]) 4).1
      = Json.obj [("tree", Json.num 1), ("elements", Json.num 2)]
    ∧ (getOrBuildDDITree hashW envW emptyFS
        (Json.obj [("tree", Json.num 1), ("elements", Json.num 2)]) 4).2.2 = true
    ∧ (getOrBuildDDITree hashW envW
        (getOrBuildDDITree hashW envW emptyFS
          (Json.obj [("tree", Json.num 1), ("elements", Json.num 2)]) 4).2.1
        (Json.obj [("tree", Json.num 1), ("elements", Json.num 2)]) 0).1
      = Json.obj [("tree", Json.num 1), ("elements", Json.num 2)]
    ∧ (getOrBuildDDITree hashW envW
        (getOrBuildDDITree hashW envW emptyFS
          (Json.obj [("tree", Json.num 1), ("elements", Json.num 2)]) 4).2.1
        (Json.obj [("tree", Json.num 1), ("elements", Json.num 2)]) 0).2.2 = false :=
  c2_cache_round_trip hashW envW
    (Json.obj [("tree", Json.num 1), ("elements", Json.num 2)]) 4 0
    (Or.inl ⟨Json.num 1, Json.num 2, rfl⟩) (by decide)

/-- Claim C3: the computed signature depends on exactly the application
version and the byte contents of the two bundled engine-asset archives
(two environments agreeing on those, whatever their clock, yield the same
signature), and a cached entry whose stored signature differs from the
currently computed one makes `getOrBuildDDITree` invoke the build
function and return the fresh payload instead of the stale one. -/
theorem c3_signature_invalidation :
    (∀ (h : List Nat → String) (e1 e2 : Env), e1.version = e2.version →
        e1.pkgData = e2.pkgData → e1.pkgMeta = e2.pkgMeta →
        computeSignature h e1 = computeSignature h e2)
    ∧ (∀ (h : List Nat → String) (env : Env) (fs : CacheFS) (P : Json) (ok : Nat)
        (m : Meta), fs.metaFile = some m → m.signature ≠ computeSignature h env →
        (getOrBuildDDITree h env fs P ok).1 = P
        ∧ (getOrBuildDDITree h env fs P ok).2.2 = true) := by
  constructor
  · intro h e1 e2 hv hd hm
    unfold computeSignature
    rw [hv, hd, hm]
  · intro h env fs P ok m hmeta hsig
    have hload : loadFromCache fs (computeSignature h env) = none := by
      unfold loadFromCache
      rw [hmeta]
      simp [hsig]
    have hmiss : cacheHit fs (computeSignature h env) = none := by
      unfold cacheHit
      rw [hload]
    simp [getOrBuildDDITree, hmiss]

/-- Claim C3 (witness): same version and asset bytes but different clocks
give equal signatures, and a concretely stale cache entry triggers a
rebuild. -/
theorem c3_signature_invalidation_witness :
    computeSignature hashW envW
      = computeSignature hashW
        { version := "1.0.0", pkgData := some [1, 2], pkgMeta := some [3],
          now := "2027-05-05T05:05:05Z" }
    ∧ (getOrBuildDDITree hashW envW
        { treeFile := some (Json.num 1), elementsFile := none,
          metaFile := some ⟨"stale", "t0"⟩ } (Json.num 7) 9).1 = Json.num 7
    ∧ (getOrBuildDDITree hashW envW
        { treeFile := some (Json.num 1), elementsFile := none,
          metaFile := some ⟨"stale", "t0"⟩ } (Json.num 7) 9).2.2 = true :=
  ⟨c3_signature_invalidation.1 hashW envW
      { version := "1.0.0", pkgData := some [1, 2], pkgMeta := some [3],
        now := "2027-05-05T05:05:05Z" } rfl rfl rfl,
   (c3_signature_invalidation.2 hashW envW
      { treeFile := some (Json.num 1), elementsFile := none,
        metaFile := some ⟨"stale", "t0"⟩ } (Json.num 7) 9 ⟨"stale", "t0"⟩ rfl
      (by decide)).1,
   (c3_signature_invalidation.2 hashW envW
      { treeFile := some (Json.num 1), elementsFile := none,
        metaFile := some ⟨"stale", "t0"⟩ } (Json.num 7) 9 ⟨"stale", "t0"⟩ rfl
      (by decide)).2⟩

/-- Claim C4: when the cache lookup misses and the persistence step fails
at any point (the `saveAttempt` exception is pending), `getOrBuildDDITree`
still returns the freshly built payload — the catch block swallows the
failure, so no error reaches the caller. -/
theorem c4_write_failure_ignored (h : List Nat → String) (env : Env)
    (fs : CacheFS) (P : Json) (ok : Nat)
    (hmiss : cacheHit fs (computeSignature h env) = none)
    (hfail : ((saveAttempt (computeSignature h env) env.now P fs ok).2).isSome = true) :
    (getOrBuildDDITree h env fs P ok).1 = P
    ∧ (getOrBuildDDITree h env fs P ok).2.2 = true := by
  simp [getOrBuildDDITree, hmiss]

/-- Claim C4 (witness): a save that fails at the very first operation
still hands the fresh payload to the caller. -/
theorem c4_write_failure_ignored_witness :
    (getOrBuildDDITree hashW envW emptyFS (Json.num 7) 0).1 = Json.num 7
    ∧ (getOrBuildDDITree hashW envW emptyFS (Json.num 7) 0).2.2 = true :=
  c4_write_failure_ignored hashW envW emptyFS (Json.num 7) 0 rfl rfl

/-!
Claim theorems: embedded-engine initialization (C9) and worker
correlation ids (C8).
-/

/-- Claim C9: `ensureWebRInitialized` is memoized — while an
initialization is in flight every caller receives the same future and the
state (in particular the `initWebR` start counter) is untouched; once
initialization has resolved successfully, calls return immediately
without re-initializing; and only a call that finds neither flag nor
promise starts `initWebR`, exactly once. -/
theorem c9_webr_init_memoized (s : WebRInitState) (pid : Nat) :
    (s.initDone = false → s.inflight = some pid →
      ensureWebRInitialized s = (s, EnsureRes.future pid))
    ∧ (s.initDone = true → ensureWebRInitialized s = (s, EnsureRes.immediate))
    ∧ (ensureWebRInitialized (webRInitResolveOk s)
        = (webRInitResolveOk s, EnsureRes.immediate))
    ∧ (s.initDone = false → s.inflight = none →
      (ensureWebRInitialized s).1.initCount = s.initCount + 1
      ∧ (ensureWebRInitialized s).1.inflight = some s.nextPid) := by
  refine ⟨?_, ?_, ?_, ?_⟩
  · intro hd hp
    simp [ensureWebRInitialized, hd, hp]
  · intro hd
    simp [ensureWebRInitialized, hd]
  · simp [ensureWebRInitialized, webRInitResolveOk]
  · intro hd hp
    simp [ensureWebRInitialized, hd, hp]

/-- Claim C9 (witness): concrete states exercising the three behaviours. -/
theorem c9_webr_init_memoized_witness :
    ensureWebRInitialized ⟨false, some 5, 6, 1⟩ = (⟨false, some 5, 6, 1⟩, EnsureRes.future 5)
    ∧ ensureWebRInitialized ⟨true, some 5, 6, 1⟩ = (⟨true, some 5, 6, 1⟩, EnsureRes.immediate)
    ∧ (ensureWebRInitialized ⟨false, none, 0, 0⟩).1.initCount = 1 :=
  ⟨(c9_webr_init_memoized ⟨false, some 5, 6, 1⟩ 5).1 rfl rfl,
   (c9_webr_init_memoized ⟨true, some 5, 6, 1⟩ 5).2.1 rfl,
   by
     have h := ((c9_webr_init_memoized ⟨false, none, 0, 0⟩ 0).2.2.2 rfl rfl).1
     simpa using h⟩

/-- Ids are allocated consecutively: invariant tying `nextId` to the send
history of a worker instance. -/
def widInv (s : WState) : Prop :=
  s.sent.map Prod.fst = List.range' 1 s.sent.length ∧ s.nextId = s.sent.length + 1

theorem widInv_start : widInv workerStart := by
  constructor <;> rfl

theorem widInv_step (s : WState) (c : WCmd) (hs : widInv s) : widInv (wstep s c) := by
  obtain ⟨hmap, hnext⟩ := hs
  cases c with
  | initOkLine =>
      simp only [wstep]
      split
      · exact ⟨hmap, hnext⟩
      · exact ⟨hmap, hnext⟩
  | evalRVoid e =>
      simp only [wstep]
      split
      · refine ⟨?_, ?_⟩
        · simp [hmap, hnext, List.range'_1_concat, Nat.add_comm]
        · simp [hnext]
      · exact ⟨hmap, hnext⟩
  | evalRString e =>
      simp only [wstep]
      split
      · refine ⟨?_, ?_⟩
        · simp [hmap, hnext, List.range'_1_concat, Nat.add_comm]
        · simp [hnext]
      · exact ⟨hmap, hnext⟩
  | stop => exact ⟨hmap, hnext⟩

theorem widInv_run (cs : List WCmd) : widInv (runWorker cs) := by
  suffices hgen : ∀ s, widInv s → widInv (cs.foldl wstep s) from hgen workerStart widInv_start
  induction cs with
  | nil => intro s hs; exact hs
  | cons c cs ih => intro s hs; exact ih (wstep s c) (widInv_step s c hs)

/-- Every line in the send history is an encoded evaluation statement
embedding its own correlation id. -/
def linesEncoded (s : WState) : Prop :=
  ∀ p, p ∈ s.sent → ∃ e, p.2 = encodeVoidLine e p.1 ∨ p.2 = encodeEvalLine e p.1

theorem linesEncoded_run (cs : List WCmd) : linesEncoded (runWorker cs) := by
  suffices hgen : ∀ s, linesEncoded s → linesEncoded (cs.foldl wstep s) by
    refine hgen workerStart ?_
    intro p hp
    simp [workerStart] at hp
  induction cs with
  | nil => intro s hs; exact hs
  | cons c cs ih =>
      intro s hs
      refine ih (wstep s c) ?_
      intro p hp
      cases c with
      | initOkLine =>
          simp only [wstep] at hp
          split at hp <;> exact hs p hp
      | evalRVoid e =>
          simp only [wstep] at hp
          split at hp
          · simp only [List.mem_append, List.mem_singleton] at hp
            rcases hp with hp | hp
            · exact hs p hp
            · exact ⟨e, Or.inl (by rw [hp])⟩
          · exact hs p hp
      | evalRString e =>
          simp only [wstep] at hp
          split at hp
          · simp only [List.mem_append, List.mem_singleton] at hp
            rcases hp with hp | hp
            · exact hs p hp
            · exact ⟨e, Or.inr (by rw [hp])⟩
          · exact hs p hp
      | stop => exact hs p hp

/-- Claim C8: over any lifetime of one worker instance, the correlation
ids of the outgoing evaluation lines are exactly `1, 2, 3, ...` in order —
they start at 1, are strictly increasing, and are never reused — and each
outgoing line is an encoded evaluation statement carrying its id. -/
theorem c8_correlation_ids (cs : List WCmd) :
    (runWorker cs).sent.map Prod.fst = List.range' 1 (runWorker cs).sent.length
    ∧ ((runWorker cs).sent.map Prod.fst).Pairwise (· < ·)
    ∧ ((runWorker cs).sent.map Prod.fst).Nodup
    ∧ (∀ p, p ∈ (runWorker cs).sent →
        ∃ e, p.2 = encodeVoidLine e p.1 ∨ p.2 = encodeEvalLine e p.1) := by
  refine ⟨(widInv_run cs).1, ?_, ?_, linesEncoded_run cs⟩
  · rw [(widInv_run cs).1]
    exact List.pairwise_lt_range' 1 (runWorker cs).sent.length
  · rw [(widInv_run cs).1]
    exact List.nodup_range' 1 (runWorker cs).sent.length

/-- Claim C8 (witness): a run with two evaluations issues ids 1 and 2, and
the second line carries id 2. -/
theorem c8_correlation_ids_witness :
    (runWorker [WCmd.initOkLine, WCmd.evalRString "a", WCmd.evalRVoid "b"]).sent.map Prod.fst
      = List.range' 1 2
    ∧ (∃ e, ((2 : Nat), encodeVoidLine "b" 2).2 = encodeVoidLine e 2
        ∨ ((2 : Nat), encodeVoidLine "b" 2).2 = encodeEvalLine e 2) := by
  refine ⟨(c8_correlation_ids [WCmd.initOkLine, WCmd.evalRString "a", WCmd.evalRVoid "b"]).1, ?_⟩
  refine (c8_correlation_ids [WCmd.initOkLine, WCmd.evalRString "a", WCmd.evalRVoid "b"]).2.2.2
    ((2 : Nat), encodeVoidLine "b" 2) ?_
  simp [runWorker, wstep, workerStart]

/-!
Claim theorems: codebook-load orchestration (C5, C10).
-/

/-- Claim C5: when the native backend is selected and its load rejects,
`loadCodebookFile` clears the native binary reference, retries the same
file through the embedded engine, and settles with exactly the embedded
engine's result or error — the caller never observes the intermediate
native failure. -/
theorem c5_native_fallback (st : AppState) (b : BackendOracles) (p e : String)
    (hsup : isSupportedCodebookFile p = true)
    (hmode : st.backendMode = BackendMode.native)
    (hnat : st.nativeRscriptPath.isSome = true)
    (hfail : b.nativeLoad p = Except.error e) :
    (loadCodebookFile st b p).state.nativeRscriptPath = none
    ∧ (loadCodebookFile st b p).result = some (webrLoad b p)
    ∧ (loadCodebookFile st b p).nativeInvoked = true
    ∧ (loadCodebookFile st b p).webrInvoked = true
    ∧ (∀ cb, webrLoad b p = Except.ok cb →
        (loadCodebookFile st b p).state.loadedCodebook = some cb) := by
  have huse : ((st.backendMode == BackendMode.native) && st.nativeRscriptPath.isSome)
      = true := by
    rw [hmode, hnat]
    rfl
  cases hw : webrLoad b p with
  | ok cb =>
      refine ⟨?_, ?_, ?_, ?_, ?_⟩ <;>
        simp [loadCodebookFile, hsup, huse, hfail, hw]
  | error err =>
      refine ⟨?_, ?_, ?_, ?_, ?_⟩ <;>
        simp [loadCodebookFile, hsup, huse, hfail, hw]

/-- Claim C5 (witness): a concrete native crash falls back to a concrete
embedded success. -/
theorem c5_native_fallback_witness :
    (loadCodebookFile
      ⟨BackendMode.native, some "/usr/bin/Rscript", none⟩
      ⟨fun _ => Except.error "exit 1", Except.ok (), fun _ => Except.ok (Json.str "cb")⟩
      "/tmp/a.xml").state.nativeRscriptPath = none
    ∧ (loadCodebookFile
        ⟨BackendMode.native, some "/usr/bin/Rscript", none⟩
        ⟨fun _ => Except.error "exit 1", Except.ok (), fun _ => Except.ok (Json.str "cb")⟩
        "/tmp/a.xml").result
      = some (webrLoad
          ⟨fun _ => Except.error "exit 1", Except.ok (), fun _ => Except.ok (Json.str "cb")⟩
          "/tmp/a.xml") := by
  exact ⟨(c5_native_fallback
      ⟨BackendMode.native, some "/usr/bin/Rscript", none⟩
      ⟨fun _ => Except.error "exit 1", Except.ok (), fun _ => Except.ok (Json.str "cb")⟩
      "/tmp/a.xml" "exit 1" rfl rfl rfl rfl).1,
    (c5_native_fallback
      ⟨BackendMode.native, some "/usr/bin/Rscript", none⟩
      ⟨fun _ => Except.error "exit 1", Except.ok (), fun _ => Except.ok (Json.str "cb")⟩
      "/tmp/a.xml" "exit 1" rfl rfl rfl rfl).2.1⟩

/-- Claim C10: a file whose computed extension is not in the supported
set makes `loadCodebookFile` show the load-failure dialog and return
early — no backend is invoked, no other event is emitted, and the whole
module state (in particular `loadedCodebook`) is unchanged. -/
theorem c10_unsupported_rejected (st : AppState) (b : BackendOracles) (p : String)
    (hext : SUPPORTED_CODEBOOK_EXTENSIONS.contains (getExtension p) = false) :
    (loadCodebookFile st b p).state = st
    ∧ (loadCodebookFile st b p).nativeInvoked = false
    ∧ (loadCodebookFile st b p).webrInvoked = false
    ∧ (loadCodebookFile st b p).events
        = [UIEvent.errorDialog "messages.load.failed" "messages.load.unsupported"]
    ∧ (loadCodebookFile st b p).result = none := by
  have hsup : isSupportedCodebookFile p = false := by
    unfold isSupportedCodebookFile
    rw [hext]
    exact Bool.and_false _
  refine ⟨?_, ?_, ?_, ?_, ?_⟩ <;> simp [loadCodebookFile, hsup]

/-- Claim C10 (witness): a `.txt` file is rejected without touching the
state. -/
theorem c10_unsupported_rejected_witness :
    (loadCodebookFile
      ⟨BackendMode.native, some "/usr/bin/Rscript", some (Json.str "old")⟩
      ⟨fun _ => Except.ok Json.null, Except.ok (), fun _ => Except.ok Json.null⟩
      "/tmp/notes.txt").state
      = ⟨BackendMode.native, some "/usr/bin/Rscript", some (Json.str "old")⟩
    ∧ (loadCodebookFile
        ⟨BackendMode.native, some "/usr/bin/Rscript", some (Json.str "old")⟩
        ⟨fun _ => Except.ok Json.null, Except.ok (), fun _ => Except.ok Json.null⟩
        "/tmp/notes.txt").nativeInvoked = false
    ∧ (loadCodebookFile
        ⟨BackendMode.native, some "/usr/bin/Rscript", some (Json.str "old")⟩
        ⟨fun _ => Except.ok Json.null, Except.ok (), fun _ => Except.ok Json.null⟩
        "/tmp/notes.txt").webrInvoked = false := by
  exact ⟨(c10_unsupported_rejected
      ⟨BackendMode.native, some "/usr/bin/Rscript", some (Json.str "old")⟩
      ⟨fun _ => Except.ok Json.null, Except.ok (), fun _ => Except.ok Json.null⟩
      "/tmp/notes.txt" rfl).1,
    (c10_unsupported_rejected
      ⟨BackendMode.native, some "/usr/bin/Rscript", some (Json.str "old")⟩
      ⟨fun _ => Except.ok Json.null, Except.ok (), fun _ => Except.ok Json.null⟩
      "/tmp/notes.txt" rfl).2.1,
    (c10_unsupported_rejected
      ⟨BackendMode.native, some "/usr/bin/Rscript", some (Json.str "old")⟩
      ⟨fun _ => Except.ok Json.null, Except.ok (), fun _ => Except.ok Json.null⟩
      "/tmp/notes.txt" rfl).2.2.1⟩

/-!
Claim theorems: normalizer (C6, C1, C7).
-/

/-- Joint value/children-shape check of a normalized tree down to a given
depth: no node carries both a `value` and a `children` field.  Universally
quantifying the depth covers every node of the (finite) tree. -/
def nodeOkToDepth : Nat → NNode → Bool
  | 0, _ => true
  | d + 1, n =>
      (!(n.value.isSome && n.children.isSome)) &&
      (match n.children with
       | none => true
       | some cs => cs.all (fun c => nodeOkToDepth d c))

theorem nodeOk_normalizeElementF : ∀ (d fuel : Nat) (nm : String) (x : Raw),
    nodeOkToDepth d (normalizeElementF fuel nm x) = true := by
  intro d
  induction d with
  | zero => intro fuel nm x; rfl
  | succ d ih =>
      intro fuel nm x
      cases fuel with
      | zero => rfl
      | succ fuel =>
          cases x with
          | atom v => rfl
          | node entries =>
              simp only [normalizeElementF]
              split
              · simp [nodeOkToDepth]
              · simp only [nodeOkToDepth, childrenOf, Option.isSome_none, Option.isSome_some,
                  Bool.false_and, Bool.and_false, Bool.not_false, Bool.true_and]
                rw [List.all_eq_true]
                intro c hc
                rw [List.mem_map] at hc
                obtain ⟨p, hp, rfl⟩ := hc
                exact ih fuel p.1 p.2

/-- Claim C6: every node the normalizer produces — through
`normalize_element` at any fuel, and through `normalize_codebook` — has at
most one of the `value` and `children` fields at every depth: a node is a
leaf with a value, an interior node with children, or bare, never both. -/
theorem c6_value_children_exclusive :
    (∀ (d fuel : Nat) (nm : String) (x : Raw),
      nodeOkToDepth d (normalizeElementF fuel nm x) = true)
    ∧ (∀ (d : Nat) (nm : String) (x : Raw),
      nodeOkToDepth d (normalize_element nm x) = true)
    ∧ (∀ (d : Nat) (cb : RValue), nodeOkToDepth d (normalize_codebook cb) = true) := by
  refine ⟨nodeOk_normalizeElementF, fun d nm x => nodeOk_normalizeElementF d _ nm x, ?_⟩
  intro d cb
  cases d with
  | zero => rfl
  | succ d =>
      rcases hk : keep_attributes cb with v | entries
      · simp [normalize_codebook, hk, nodeOkToDepth, normalize_children,
          normalizeChildrenF, childrenOf]
      · simp only [normalize_codebook, hk, nodeOkToDepth, normalize_children,
          normalizeChildrenF, childrenOf, Option.isSome_none, Option.isSome_some,
          Bool.false_and, Bool.not_false, Bool.true_and]
        rw [List.all_eq_true]
        intro c hc
        rw [List.mem_map] at hc
        obtain ⟨p, hp, rfl⟩ := hc
        exact nodeOk_normalizeElementF d _ p.1 p.2

/-- Scalar content of a node's value field, for separating concrete
trees. -/
def atomValueStr (n : NNode) : String :=
  match n.value with
  | some (Raw.atom s) => s
  | _ => ""

/-- The raw map with keys `x`, `x.1`, `x.2` of claim C1. -/
def exC1 : Raw :=
  Raw.node (RawEntries.cons "x" (Raw.atom "a")
    (RawEntries.cons "x.1" (Raw.atom "b")
      (RawEntries.cons "x.2" (Raw.atom "c") RawEntries.nil)))

/-- Claim C1 (code bug): on the raw map `{x: "a", x.1: "b", x.2: "c"}`,
`normalize_children` does produce three consecutive siblings named `x` in
key order, but every one of them is the normalization of the value stored
under the bare key `x` — the values under `x.1` and `x.2` are dropped,
because the grouping pattern `"(\\\\.\\\\d+)?$"` is over-escaped and
matches a literal-backslash tail instead of a numeric suffix.  The claim's
expected output (the i-th sibling normalizing the i-th value) differs. -/
theorem c1_suffix_grouping_bug :
    (normalize_children exC1).map (fun n => (n.name, n.value))
      = [("x", some (Raw.atom "a")), ("x", some (Raw.atom "a")), ("x", some (Raw.atom "a"))]
    ∧ (normalize_element "x" (Raw.atom "b")).value = some (Raw.atom "b")
    ∧ normalize_children exC1
        ≠ [normalize_element "x" (Raw.atom "a"), normalize_element "x" (Raw.atom "b"),
           normalize_element "x" (Raw.atom "c")] := by
  refine ⟨rfl, rfl, ?_⟩
  intro hEq
  have h2 := congrArg (fun l => atomValueStr (l.getD 1 default)) hEq
  have h3 : ("a" : String) = "b" := h2
  exact absurd h3 (by decide)

/-- Entries from an association list, for `RVEntries`. -/
def RVEntries.ofList : List (String × RValue) → RVEntries
  | [] => RVEntries.nil
  | (k, v) :: r => RVEntries.cons k v (RVEntries.ofList r)

/-- Modelled from the spec: the key convention used when a normalized tree
is re-expressed as a raw map (spec section 4.5) — among siblings sharing a
name, the first keeps the bare name and the i-th thereafter gets the
suffix `.i`.  No source function performs this re-expression; it exists
only in the specification's idempotence property. -/
def suffixKeysAux : List (String × RValue) → List String → List (String × RValue)
  | [], _ => []
  | (nm, v) :: rest, seen =>
      let cnt := seen.count nm
      ((if cnt = 0 then nm else nm ++ "." ++ toString cnt), v)
        :: suffixKeysAux rest (nm :: seen)

/-- Modelled from the spec: injection of an attribute-reified `Raw` value
back into the engine-value space, with no R attributes (they are already
explicit `.attributes` entries). -/
def rawToRValueF : Nat → Raw → RValue
  | 0, _ => RValue.atom "" []
  | _ + 1, Raw.atom v => RValue.atom v []
  | fuel + 1, Raw.node entries =>
      RValue.rlist (RVEntries.ofList
        (entries.toList.map (fun p => (p.1, rawToRValueF fuel p.2)))) []

/-- Modelled from the spec: re-expression of one normalized node's content
as a raw engine value (spec section 8, idempotence property) — a leaf
becomes its scalar value (wrapped in an explicit `value` entry when the
node carries attributes), an interior node becomes the map of its
children under the suffix key convention, and attributes return as an
explicit `.attributes` entry. -/
def reexpressValF : Nat → NNode → RValue
  | 0, _ => RValue.atom "" []
  | fuel + 1, n =>
      match n.value with
      | some v =>
          match n.attributes with
          | none => rawToRValueF fuel v
          | some a =>
              RValue.rlist (RVEntries.ofList
                [("value", rawToRValueF fuel v), (".attributes", rawToRValueF fuel a)]) []
      | none =>
          let cs := n.children.getD []
          let entries := suffixKeysAux (cs.map (fun c => (c.name, reexpressValF fuel c))) []
          RValue.rlist (RVEntries.ofList
            (match n.attributes with
             | none => entries
             | some a => entries ++ [(".attributes", rawToRValueF fuel a)])) []

/-- Modelled from the spec: re-expression of a whole normalized tree as
the raw map handed back to `normalize_codebook` — the root's children
under the suffix key convention, plus the root attributes. -/
def reexpressRootF (fuel : Nat) (n : NNode) : RValue :=
  let cs := n.children.getD []
  let entries := suffixKeysAux (cs.map (fun c => (c.name, reexpressValF fuel c))) []
  RValue.rlist (RVEntries.ofList
    (match n.attributes with
     | none => entries
     | some a => entries ++ [(".attributes", rawToRValueF fuel a)])) []

/-- The engine output of claim C7: a list with the duplicated key `x`, as
repeated XML elements arrive from the engine. -/
def rv7 : RValue :=
  RValue.rlist (RVEntries.cons "x" (RValue.atom "a" [])
    (RVEntries.cons "x" (RValue.atom "b" []) RVEntries.nil)) []

/-- Claim C7 (code bug): `normalize_codebook` turns the duplicated-key map
`{x: "a", x: "b"}` into the normalized tree with siblings `x:"a"`,
`x:"b"`; re-expressing that tree as the raw map `{x: "a", x.1: "b"}` and
normalizing again yields `x:"a"`, `x:"a"` — not the same tree — because
the over-escaped grouping pattern never matches the `.1` suffix.  (The
fuel 9 exceeds the nesting depth of every value involved.) -/
theorem c7_idempotence_fails :
    normalize_codebook rv7
      = ⟨"codeBook", none, none,
          some [⟨"x", none, some (Raw.atom "a"), none⟩,
                ⟨"x", none, some (Raw.atom "b"), none⟩]⟩
    ∧ reexpressRootF 9 (normalize_codebook rv7)
      = RValue.rlist (RVEntries.cons "x" (RValue.atom "a" [])
          (RVEntries.cons "x.1" (RValue.atom "b" []) RVEntries.nil)) []
    ∧ normalize_codebook (reexpressRootF 9 (normalize_codebook rv7))
      ≠ normalize_codebook rv7 := by
  refine ⟨rfl, rfl, ?_⟩
  intro hEq
  have h2 := congrArg (fun t => atomValueStr ((t.children.getD []).getD 1 default)) hEq
  have h3 : ("a" : String) = "b" := h2
  exact absurd h3 (by decide)

/-!
Fuel adequacy: at any fuel of at least `rawSize` (respectively
`rvalueSize`), the fuel-indexed normalizer functions are constant, so the
canonical-fuel wrappers denote the R functions' values.
-/

theorem rawSize_pos (x : Raw) : 1 ≤ rawSize x := by
  cases x <;> simp [rawSize]

theorem rvalueSize_pos (x : RValue) : 1 ≤ rvalueSize x := by
  cases x <;> simp [rvalueSize]

theorem RawEntries.toList_ofList : ∀ (l : List (String × Raw)),
    (RawEntries.ofList l).toList = l
  | [] => rfl
  | (k, v) :: r => by
      simp [RawEntries.ofList, RawEntries.toList, RawEntries.toList_ofList r]

theorem mem_toList_rawSize : ∀ {es : RawEntries} {k : String} {v : Raw},
    (k, v) ∈ es.toList → rawSize v < rawSize (Raw.node es)
  | RawEntries.nil, k, v, h => by simp [RawEntries.toList] at h
  | RawEntries.cons k1 v1 rest, k, v, h => by
      simp only [RawEntries.toList, List.mem_cons] at h
      rcases h with h | h
      · have h2 : v = v1 := congrArg Prod.snd h
        subst h2
        simp only [rawSize, rawEntriesSize]
        omega
      · have hrec := mem_toList_rawSize h
        simp only [rawSize, rawEntriesSize] at hrec ⊢
        omega

theorem mem_toList_rvalueSize : ∀ {es : RVEntries} {k : String} {v : RValue},
    (k, v) ∈ es.toList → rvalueSize v < 1 + rvEntriesSize es
  | RVEntries.nil, k, v, h => by simp [RVEntries.toList] at h
  | RVEntries.cons k1 v1 rest, k, v, h => by
      simp only [RVEntries.toList, List.mem_cons] at h
      rcases h with h | h
      · have h2 : v = v1 := congrArg Prod.snd h
        subst h2
        simp only [rvEntriesSize]
        omega
      · have hrec := mem_toList_rvalueSize h
        simp only [rvEntriesSize] at hrec ⊢
        omega

theorem mem_removeFirstKey {key : String} {l : List (String × Raw)}
    {q : String × Raw} (h : q ∈ removeFirstKey key l) : q ∈ l := by
  induction l with
  | nil => simp [removeFirstKey] at h
  | cons p rest ih =>
      rcases p with ⟨k, v⟩
      simp only [removeFirstKey] at h
      by_cases hk : k = key
      · rw [if_pos hk] at h
        exact List.mem_cons_of_mem _ h
      · rw [if_neg hk] at h
        rcases List.mem_cons.mp h with h | h
        · exact h ▸ List.mem_cons_self _ _
        · exact List.mem_cons_of_mem _ (ih h)

theorem mem_groupRows {l : List (String × Raw)} {p : String × Raw}
    (h : p ∈ groupRows l) : ∃ k, (k, p.2) ∈ l := by
  unfold groupRows at h
  rw [List.mem_filterMap] at h
  obtain ⟨bj, _, hmap⟩ := h
  rw [Option.map_eq_some'] at hmap
  obtain ⟨e, hget, rfl⟩ := hmap
  exact ⟨e.1, by simpa using List.get?_mem hget⟩

theorem normalizeElementF_stable :
    ∀ (n : Nat) (x : Raw), rawSize x ≤ n → ∀ (f g : Nat) (nm : String),
      rawSize x ≤ f → rawSize x ≤ g →
      normalizeElementF f nm x = normalizeElementF g nm x := by
  intro n
  induction n with
  | zero =>
      intro x hx
      have := rawSize_pos x
      omega
  | succ n ih =>
      intro x hx f g nm hf hg
      cases x with
      | atom v =>
          cases f with
          | zero => have := rawSize_pos (Raw.atom v); omega
          | succ f =>
              cases g with
              | zero => have := rawSize_pos (Raw.atom v); omega
              | succ g => rfl
      | node entries =>
          cases f with
          | zero => have := rawSize_pos (Raw.node entries); omega
          | succ f =>
              cases g with
              | zero => have := rawSize_pos (Raw.node entries); omega
              | succ g =>
                  simp only [normalizeElementF]
                  split
                  · rfl
                  · have hmap : childrenOf (normalizeElementF f)
                        (Raw.node (RawEntries.ofList (removeFirstKey ".extra"
                          (removeFirstKey ".attributes" entries.toList))))
                        = childrenOf (normalizeElementF g)
                        (Raw.node (RawEntries.ofList (removeFirstKey ".extra"
                          (removeFirstKey ".attributes" entries.toList)))) := by
                      simp only [childrenOf]
                      refine List.map_congr_left ?_
                      intro p hp
                      obtain ⟨k, hk⟩ := mem_groupRows hp
                      rw [RawEntries.toList_ofList] at hk
                      have hsub : (k, p.2) ∈ entries.toList :=
                        mem_removeFirstKey (mem_removeFirstKey hk)
                      have hlt : rawSize p.2 < rawSize (Raw.node entries) :=
                        mem_toList_rawSize hsub
                      exact ih p.2 (by omega) f g p.1 (by omega) (by omega)
                    rw [hmap]

theorem keepAttributesF_stable :
    ∀ (n : Nat) (x : RValue), rvalueSize x ≤ n → ∀ (f g : Nat),
      rvalueSize x ≤ f → rvalueSize x ≤ g →
      keepAttributesF f x = keepAttributesF g x := by
  intro n
  induction n with
  | zero =>
      intro x hx
      have := rvalueSize_pos x
      omega
  | succ n ih =>
      intro x hx f g hf hg
      cases x with
      | atom v attrs =>
          cases f with
          | zero => have := rvalueSize_pos (RValue.atom v attrs); omega
          | succ f =>
              cases g with
              | zero => have := rvalueSize_pos (RValue.atom v attrs); omega
              | succ g => rfl
      | rlist entries attrs =>
          cases f with
          | zero => have := rvalueSize_pos (RValue.rlist entries attrs); omega
          | succ f =>
              cases g with
              | zero => have := rvalueSize_pos (RValue.rlist entries attrs); omega
              | succ g =>
                  simp only [keepAttributesF]
                  have hmap : entries.toList.map
                        (fun p => ((if p.1 = "" then "value" else p.1), keepAttributesF f p.2))
                      = entries.toList.map
                        (fun p => ((if p.1 = "" then "value" else p.1), keepAttributesF g p.2)) := by
                    refine List.map_congr_left ?_
                    intro p hp
                    have hlt : rvalueSize p.2 < rvalueSize (RValue.rlist entries attrs) := by
                      have := @mem_toList_rvalueSize entries p.1 p.2 (by simpa using hp)
                      simp only [rvalueSize]
                      omega
                    have heq := ih p.2 (by omega) f g (by omega) (by omega)
                    rw [heq]
                  rw [hmap]

/-- Any fuel of at least `rawSize x` computes `normalize_element`. -/
theorem normalize_element_fuel (f : Nat) (nm : String) (x : Raw)
    (hf : rawSize x ≤ f) :
    normalizeElementF f nm x = normalize_element nm x :=
  normalizeElementF_stable f x hf f (rawSize x) nm hf (Nat.le_refl _)

/-- Any fuel of at least `rvalueSize x` computes `keep_attributes`. -/
theorem keep_attributes_fuel (f : Nat) (x : RValue)
    (hf : rvalueSize x ≤ f) :
    keepAttributesF f x = keep_attributes x :=
  keepAttributesF_stable f x hf f (rvalueSize x) hf (Nat.le_refl _)
